import Mathlib

/-!
Verification model of the neural-search engine in `src/app.py`.

Modelling conventions:
* Python strings are modelled as `List Char` (`Str`); `str.lower` is modelled by
  mapping `Char.toLower` over the characters, Python whitespace (`\s`, `str.split`,
  `str.strip`) by `Char.isWhitespace`.
* Python float arithmetic is modelled exactly over `ℚ`.
* External collaborators are parameters: the sentence-transformers embedder is a
  function `List Str → List (List ℚ)` (or a precomputed query embedding
  `List ℚ`), and `rapidfuzz.fuzz.partial_ratio` is an opaque function
  `Str → Str → ℚ` carried in a `SearchCtx`.
* `np.argsort` is modelled as the ascending sort that breaks score ties by
  original position (numpy's stable behaviour on such inputs); the code's
  `[::-1]` reversal is taken literally.
-/

namespace App

/-- Python strings, modelled as lists of characters. -/
abbrev Str := List Char

/-- Shorthand for writing concrete `Str` values from Lean string literals. -/
def str (s : String) : Str := s.toList

/-- Model of Python `str.lower` (ASCII case mapping). -/
def pyLower (s : Str) : Str := s.map Char.toLower

/-- Model of Python `a or b` for strings: `b` when `a` is empty, else `a`. -/
def pyOr (a b : Str) : Str := if a = [] then b else a

/-- Bool test that `pre` is a leading segment of the second list. -/
def isPrefB : Str → Str → Bool
  | [], _ => true
  | _ :: _, [] => false
  | a :: as, b :: bs => a == b && isPrefB as bs

/-- Model of Python `needle in hay` for strings (substring containment). -/
def substrB (needle hay : Str) : Bool :=
  match hay with
  | [] => needle.isEmpty
  | _ :: t => isPrefB needle hay || substrB needle t

/-- Model of Python `s.split()` (split on whitespace runs, no empty parts),
written with an explicit fuel argument so that it is structurally recursive. -/
def splitWsF : ℕ → Str → List Str
  | 0, _ => []
  | _ + 1, [] => []
  | f + 1, c :: rest =>
    if c.isWhitespace then splitWsF f rest
    else (c :: rest.takeWhile (fun d => !d.isWhitespace)) ::
      splitWsF f (rest.dropWhile (fun d => !d.isWhitespace))

/-- Model of Python `s.split()`. -/
def splitWs (s : Str) : List Str := splitWsF s.length s

/-- Model of Python `' '.join` on a list of strings. -/
def joinSp : List Str → Str
  | [] => []
  | [s] => s
  | s :: rest => s ++ ' ' :: joinSp rest

/-- Scanner for the first `'>'` of a list: returns the characters before the
first `'>'` and the characters after it, or `none` when there is no `'>'`.
This captures how the greedy `[^>]+` of the tag regex in `strip_html`
(src/app.py line 64) extends up to the first closing angle bracket. -/
def findGt : Str → Option (Str × Str)
  | [] => none
  | c :: rest =>
    if c = '>' then some ([], rest)
    else (findGt rest).map (fun p => (c :: p.1, p.2))

/-- Model of `re.sub(r'<[^>]+>', '', text)` (src/app.py line 64): one
left-to-right pass deleting every maximal `<[^>]+>` span, with fuel for
structural recursion.  At a `'<'` whose first following `'>'` is not adjacent,
the whole span up to that `'>'` is deleted; a `'<'` followed directly by `'>'`
or with no later `'>'` does not start a match and is kept. -/
def stripTagsF : ℕ → Str → Str
  | 0, l => l
  | _ + 1, [] => []
  | f + 1, c :: rest =>
    if c = '<' then
      match findGt rest with
      | some ([], _) => c :: stripTagsF f rest
      | some (_ :: _, aft) => stripTagsF f aft
      | none => c :: rest
    else c :: stripTagsF f rest

/-- Tag removal of `strip_html`, at adequate fuel. -/
def stripTagsL (l : Str) : Str := stripTagsF l.length l

/-- Model of `re.sub(r'\s+', ' ', text)` (src/app.py line 66): every maximal
whitespace run becomes a single space, with fuel for structural recursion. -/
def collapseWsF : ℕ → Str → Str
  | 0, l => l
  | _ + 1, [] => []
  | f + 1, c :: rest =>
    if c.isWhitespace then ' ' :: collapseWsF f (rest.dropWhile Char.isWhitespace)
    else c :: collapseWsF f rest

/-- Whitespace collapsing of `strip_html`, at adequate fuel. -/
def collapseWs (l : Str) : Str := collapseWsF l.length l

/-- Leading-whitespace removal (half of Python `str.strip()`). -/
def lstripWs (l : Str) : Str := l.dropWhile Char.isWhitespace

/-- Trailing-whitespace removal (the other half of Python `str.strip()`). -/
def rstripWs (l : Str) : Str := (l.reverse.dropWhile Char.isWhitespace).reverse

/-- Model of Python `str.strip()`. -/
def pyStrip (l : Str) : Str := rstripWs (lstripWs l)

/-- Model of `NeuralSearchEngine.strip_html` (src/app.py lines 59-67): remove
`<[^>]+>` spans, collapse whitespace runs to single spaces, trim. (For empty
input the Python code returns `''` early, which coincides with running the
pipeline on the empty string.) -/
def stripHtml (l : Str) : Str := pyStrip (collapseWs (stripTagsL l))

/-- Whether a `<[^>]+>` match starts right before `rest`: the first `'>'` of
`rest` exists and is not its first character. -/
def tagAt (rest : Str) : Bool :=
  match findGt rest with
  | some ([], _) => false
  | some (_ :: _, _) => true
  | none => false

/-- Bool test that a list of characters contains a substring matching the
markup-tag regex `<[^>]+>` used by `strip_html`: some `'<'` whose first
following `'>'` exists and is not immediately adjacent. -/
def hasTag : Str → Bool
  | [] => false
  | c :: rest => (if c = '<' then tagAt rest else false) || hasTag rest

/-- A normalized product record, as built by `NeuralSearchEngine.train`
(src/app.py lines 90-123): all attribute fields plus the derived
`search_text`. -/
structure ProductData where
  id : Str
  name : Str
  model : Str
  description : Str
  category : Str
  season : Str
  gender : Str
  kind_of : Str
  fit : Str
  color : Str
  manufacturer : Str
  price : Str
  image : Str
  url : Str
  search_text : Str
deriving DecidableEq, Inhabited

/-- Raw text of the known child tags of one `<product>` XML node, before
markup stripping (`''` models a missing or empty node, as in `get_text`). -/
structure RawProduct where
  id : Str
  name : Str
  mpn : Str
  model : Str
  description : Str
  category : Str
  season : Str
  gender : Str
  kind_of : Str
  fit : Str
  color : Str
  manufacturer : Str
  price_with_vat : Str
  price : Str
  image : Str
  link : Str
  url : Str
deriving DecidableEq

/-- A raw product node with every field empty. -/
def emptyRaw : RawProduct :=
  { id := [], name := [], mpn := [], model := [], description := [], category := []
    season := [], gender := [], kind_of := [], fit := [], color := [], manufacturer := []
    price_with_vat := [], price := [], image := [], link := [], url := [] }

/-- The `search_text_parts` list of `train` (src/app.py lines 108-119):
name, model, description truncated to 500 characters, category, season,
gender, kind_of, fit, color, manufacturer, in that order. -/
def searchTextParts (p : ProductData) : List Str :=
  [p.name, p.model, p.description.take 500, p.category, p.season, p.gender,
   p.kind_of, p.fit, p.color, p.manufacturer]

/-- Model of the per-product work of `train` (src/app.py lines 90-123):
each field is extracted via `get_text` (markup stripped, whitespace
normalized), `model`/`price`/`url` use their primary-or-fallback tag pairs,
and `search_text` joins the non-empty parts with single spaces. -/
def mkProductData (raw : RawProduct) : ProductData :=
  let base : ProductData :=
    { id := stripHtml raw.id
      name := stripHtml raw.name
      model := pyOr (stripHtml raw.mpn) (stripHtml raw.model)
      description := stripHtml raw.description
      category := stripHtml raw.category
      season := stripHtml raw.season
      gender := stripHtml raw.gender
      kind_of := stripHtml raw.kind_of
      fit := stripHtml raw.fit
      color := stripHtml raw.color
      manufacturer := stripHtml raw.manufacturer
      price := pyOr (stripHtml raw.price_with_vat) (stripHtml raw.price)
      image := stripHtml raw.image
      url := pyOr (stripHtml raw.link) (stripHtml raw.url)
      search_text := [] }
  { base with search_text := joinSp ((searchTextParts base).filter (fun s => !s.isEmpty)) }

/-- External scoring collaborator: `rapidfuzz.fuzz.partial_ratio`, an opaque
function returning a value in `[0, 100]` (consumed, not modelled). -/
structure SearchCtx where
  fuzzFn : Str → Str → ℚ

/-- Per-query boost weights (src/app.py lines 390-398 build all seven keys). -/
structure BoostConfig where
  season : ℚ
  category : ℚ
  manufacturer : ℚ
  color : ℚ
  gender : ℚ
  fit : ℚ
  kind_of : ℚ

/-- In-memory tenant index: `self.products` and `self.embeddings`. -/
structure Engine where
  products : List ProductData
  embeddings : List (List ℚ)
deriving DecidableEq

/-- Inner product of two vectors (a row of `np.dot(self.embeddings, q)`). -/
def dot (a b : List ℚ) : ℚ := (List.zipWith (fun x y => x * y) a b).sum

/-- Semantic similarity vector (src/app.py line 209). -/
def simScores (E : Engine) (qe : List ℚ) : List ℚ :=
  E.embeddings.map (fun row => dot row qe)

/-- Fuzzy score of one product (src/app.py lines 214-221): max of
`partial_ratio` over name, model, description, category, season, gender,
divided by 100. -/
def fuzzyScore (ctx : SearchCtx) (q : Str) (p : ProductData) : ℚ :=
  (max (max (max (max (max
    (ctx.fuzzFn (pyLower q) (pyLower p.name))
    (ctx.fuzzFn (pyLower q) (pyLower p.model)))
    (ctx.fuzzFn (pyLower q) (pyLower p.description)))
    (ctx.fuzzFn (pyLower q) (pyLower p.category)))
    (ctx.fuzzFn (pyLower q) (pyLower p.season)))
    (ctx.fuzzFn (pyLower q) (pyLower p.gender))) / 100

/-- Fuzzy score vector (src/app.py lines 212-222). -/
def fuzzyScores (ctx : SearchCtx) (q : Str) (E : Engine) : List ℚ :=
  E.products.map (fuzzyScore ctx q)

/-- Combined base scores: `0.7 * similarities + 0.3 * fuzzy_scores`
(src/app.py line 225). -/
def combinedScores (ctx : SearchCtx) (E : Engine) (qe : List ℚ) (q : Str) : List ℚ :=
  List.zipWith (fun s f => 7/10 * s + 3/10 * f) (simScores E qe) (fuzzyScores ctx q E)

/-- The season `elif` chain of the boost pass (src/app.py lines 238-246):
at most one bilingual keyword family fires, adding the season weight once. -/
def seasonBoostVal (w : ℚ) (qL sL : Str) : ℚ :=
  if (substrB (str "καλοκαίρι") qL || substrB (str "summer") qL) && substrB (str "καλοκαιρ") sL then w
  else if (substrB (str "χειμώνα") qL || substrB (str "κρύο") qL || substrB (str "winter") qL) && substrB (str "χειμ") sL then w
  else if (substrB (str "άνοιξη") qL || substrB (str "spring") qL) && substrB (str "ανοιξ") sL then w
  else if (substrB (str "φθινόπωρο") qL || substrB (str "autumn") qL || substrB (str "fall") qL) && substrB (str "φθιν") sL then w
  else 0

/-- The accumulated additive boost of one product (src/app.py lines 231-284),
attribute branches in source order: season, category, manufacturer, color,
gender, fit, kind_of. -/
def boostAccum (bc : BoostConfig) (qL : Str) (p : ProductData) : ℚ :=
  (if 0 < bc.season then
    (if !(pyLower p.season).isEmpty then seasonBoostVal bc.season qL (pyLower p.season) else 0)
  else 0)
  + (if 0 < bc.category then
      (if !(pyLower p.category).isEmpty && substrB (pyLower p.category) qL then bc.category else 0)
    else 0)
  + (if 0 < bc.manufacturer then
      (if !(pyLower p.manufacturer).isEmpty && substrB (pyLower p.manufacturer) qL then bc.manufacturer else 0)
    else 0)
  + (if 0 < bc.color then
      (if !(pyLower p.color).isEmpty && substrB (pyLower p.color) qL then bc.color else 0)
    else 0)
  + (if 0 < bc.gender then
      (if !(pyLower p.gender).isEmpty && substrB (pyLower p.gender) qL then bc.gender else 0)
    else 0)
  + (if 0 < bc.fit then
      (if !(pyLower p.fit).isEmpty && (splitWs (pyLower p.fit)).any (fun w => substrB w qL) then bc.fit else 0)
    else 0)
  + (if 0 < bc.kind_of then
      (if !(pyLower p.kind_of).isEmpty && substrB (pyLower p.kind_of) qL then bc.kind_of else 0)
    else 0)

/-- Boosted score vector: combined scores plus per-product boost
(src/app.py lines 229-284). -/
def boostedAll (ctx : SearchCtx) (E : Engine) (qe : List ℚ) (q : Str) (bc : BoostConfig) : List ℚ :=
  List.zipWith (fun c b => c + b) (combinedScores ctx E qe q)
    (E.products.map (boostAccum bc (pyLower q)))

/-- Entry of a score list, defaulting to 0 out of range. -/
def sGet (l : List ℚ) (i : ℕ) : ℚ := l.getD i 0

/-- Ascending comparison used to model `np.argsort(boosted_scores)`:
by score, ties broken by original position. -/
def lexLe (s : List ℚ) (i j : ℕ) : Prop :=
  sGet s i < sGet s j ∨ (sGet s i = sGet s j ∧ i ≤ j)

instance lexLeDecidable (s : List ℚ) : DecidableRel (lexLe s) := fun i j => by
  unfold lexLe; infer_instance

instance lexLeTotal (s : List ℚ) : IsTotal ℕ (lexLe s) := by
  constructor
  intro i j
  rcases lt_trichotomy (sGet s i) (sGet s j) with h | h | h
  · exact Or.inl (Or.inl h)
  · rcases le_total i j with hij | hij
    · exact Or.inl (Or.inr ⟨h, hij⟩)
    · exact Or.inr (Or.inr ⟨h.symm, hij⟩)
  · exact Or.inr (Or.inl h)

instance lexLeTrans (s : List ℚ) : IsTrans ℕ (lexLe s) := by
  constructor
  intro a b c hab hbc
  rcases hab with h1 | ⟨h1, h1'⟩ <;> rcases hbc with h2 | ⟨h2, h2'⟩
  · exact Or.inl (h1.trans h2)
  · exact Or.inl (h2 ▸ h1)
  · exact Or.inl (h1 ▸ h2)
  · exact Or.inr ⟨h1.trans h2, h1'.trans h2'⟩

/-- Model of `np.argsort(boosted_scores)[::-1]` (src/app.py line 287): the
ascending stable argsort of the score list, reversed. -/
def rankedIdx (s : List ℚ) : List ℕ :=
  (List.insertionSort (lexLe s) (List.range s.length)).reverse

/-- The order the produced ranking actually satisfies: strictly descending
score, with equal scores ordered by descending original index. -/
def rankRel (s : List ℚ) (i j : ℕ) : Prop :=
  sGet s j < sGet s i ∨ (sGet s i = sGet s j ∧ j < i)

/-- The order claimed by the specification: strictly descending score, with
equal scores ordered by ascending (original feed) index. -/
def rankRelSpec (s : List ℚ) (i j : ℕ) : Prop :=
  sGet s j < sGet s i ∨ (sGet s i = sGet s j ∧ i < j)

/-- Threshold filtering (src/app.py lines 290-293): applied only when the
threshold is positive, keeping indices whose boosted score reaches it. -/
def survivors (s : List ℚ) (thr : ℚ) : List ℕ :=
  if 0 < thr then (rankedIdx s).filter (fun i => decide (thr ≤ sGet s i))
  else rankedIdx s

/-- Model of the Python slice `l[:n]` for an arbitrary integer bound:
nonnegative `n` takes the first `n` entries, negative `n` drops the last
`|n|` entries. -/
def pySlice {α : Type} (n : ℤ) (l : List α) : List α :=
  if 0 ≤ n then l.take n.toNat else l.take (l.length - (-n).toNat)

/-- One search result (src/app.py lines 299-305): a copy of the stored
product record plus the four score fields. -/
structure SearchResult where
  product : ProductData
  score : ℚ
  base_score : ℚ
  neural_score : ℚ
  fuzzy_score : ℚ

/-- Builds the result record for ranked index `i` (src/app.py lines 299-305). -/
def mkResult (ctx : SearchCtx) (E : Engine) (qe : List ℚ) (q : Str) (bc : BoostConfig) (i : ℕ) :
    SearchResult :=
  { product := E.products.getD i default
    score := sGet (boostedAll ctx E qe q bc) i
    base_score := sGet (combinedScores ctx E qe q) i
    neural_score := sGet (simScores E qe) i
    fuzzy_score := sGet (fuzzyScores ctx q E) i }

/-- `top_indices` (src/app.py line 296): the filtered ranking truncated by the
caller-supplied limit. -/
def topIdx (ctx : SearchCtx) (E : Engine) (qe : List ℚ) (q : Str) (bc : BoostConfig)
    (thr : ℚ) (lim : ℤ) : List ℕ :=
  pySlice lim (survivors (boostedAll ctx E qe q bc) thr)

/-- The scoring-and-ranking body of `NeuralSearchEngine.search`
(src/app.py lines 206-307) for a loaded index: the ranked, filtered,
truncated result list. -/
def searchCore (ctx : SearchCtx) (E : Engine) (qe : List ℚ) (q : Str) (bc : BoostConfig)
    (thr : ℚ) (lim : ℤ) : List SearchResult :=
  (topIdx ctx E qe q bc thr lim).map (mkResult ctx E qe q bc)

/-- The surviving ranked entries before truncation: what `search` would
return with no limit applied. -/
def searchAll (ctx : SearchCtx) (E : Engine) (qe : List ℚ) (q : Str) (bc : BoostConfig)
    (thr : ℚ) : List SearchResult :=
  (survivors (boostedAll ctx E qe q bc) thr).map (mkResult ctx E qe q bc)

/-- Persisted per-tenant artifact (src/app.py lines 136-141):
`shop_id`, `products`, `embeddings`, `trained_at`. -/
structure Artifact where
  shop_id : Str
  products : List ProductData
  embeddings : List (List ℚ)
  trained_at : ℚ
deriving DecidableEq

/-- The in-memory index state installed from an artifact
(`self.products` and `self.embeddings`, src/app.py lines 146-147 and 173-174). -/
def loadIndex (a : Artifact) : Engine :=
  { products := a.products, embeddings := a.embeddings }

/-- Model of `NeuralSearchEngine.train` up to the persisted artifact
(src/app.py lines 84-147): parse every product node, reject an empty catalog,
embed every `search_text` with the external encoder, and assemble the
artifact. -/
def trainArtifact (encode : List Str → List (List ℚ)) (shopId : Str)
    (raws : List RawProduct) (now : ℚ) : Option Artifact :=
  let products := raws.map mkProductData
  if products.isEmpty then none
  else some
    { shop_id := shopId
      products := products
      embeddings := encode (products.map (fun p => p.search_text))
      trained_at := now }

/-- Model of `NeuralSearchEngine.load` (src/app.py lines 162-181): a missing
file returns no index, a file whose deserialization fails returns no index,
and only a parsed artifact installs products and embeddings. The
deserializer (`json.load` plus field extraction) is an opaque parameter. -/
def loadModel (parse : Str → Option Artifact) (file : Option Str) : Option Engine :=
  match file with
  | none => none
  | some content =>
    match parse content with
    | none => none
    | some a => some (loadIndex a)

/-- Model of the full `search` entry (src/app.py lines 183-311) as explicit
state passing: when the in-memory product list is empty the engine first
loads from disk (mutating itself), returning no results when that fails;
otherwise the loaded state is used as is. -/
def searchRun (ctx : SearchCtx) (parse : Str → Option Artifact) (file : Option Str)
    (E : Engine) (qe : List ℚ) (q : Str) (bc : BoostConfig) (thr : ℚ) (lim : ℤ) :
    Engine × List SearchResult :=
  if E.products.isEmpty then
    match loadModel parse file with
    | none => (E, [])
    | some E2 => (E2, searchCore ctx E2 qe q bc thr lim)
  else (E, searchCore ctx E qe q bc thr lim)

/-- The sequence of file contents observable while `train` writes the
artifact (src/app.py lines 143-144): `open(path, 'w')` truncates the file,
then the serialized artifact is appended left to right, so a concurrent
reader can observe every prefix of the new content. -/
def persistWriteStates (new : Str) : List Str :=
  (List.range (new.length + 1)).map (fun k => new.take k)

/-- Training status values (src/app.py lines 329-352 and 473-477). -/
inductive TrainStatusKind
  | training
  | completed
  | failed
deriving DecidableEq

/-- One entry of the `training_status` map; absent dictionary keys are
modelled as `none` fields. -/
structure StatusRec where
  status : TrainStatusKind
  started_at : Option ℚ
  completed_at : Option ℚ
  products_count : Option ℕ
  error : Option Str
  message : Str
deriving DecidableEq

/-- The process-wide mutable state: `loaded_models` and `training_status`
(src/app.py lines 28-31). -/
structure SysState where
  loadedModels : Str → Option Engine
  trainingStatus : Str → Option StatusRec

/-- Outcome of `engine.train` as observed by `background_train`: either a
success with the trained engine and its product count, or a failure with an
error description (covering parse errors, embedding failures, persistence
failures, and any raised exception). -/
inductive TrainOutcome
  | ok (e : Engine) (count : ℕ)
  | fail (err : Str)

/-- Model of `background_train` (src/app.py lines 317-352): on success the
trained engine replaces the cache entry and the status becomes `completed`;
on any failure only the status record is written (state `failed`, with the
error and a completion timestamp) and the cache is untouched. -/
def backgroundTrain (shopId : Str) (outcome : TrainOutcome) (now : ℚ) (st : SysState) :
    SysState :=
  match outcome with
  | .ok e cnt =>
    { loadedModels := fun sid => if sid = shopId then some e else st.loadedModels sid
      trainingStatus := fun sid =>
        if sid = shopId then
          some { status := .completed, started_at := none, completed_at := some now
                 products_count := some cnt, error := none
                 message := str "Training completed successfully" }
        else st.trainingStatus sid }
  | .fail err =>
    { loadedModels := st.loadedModels
      trainingStatus := fun sid =>
        if sid = shopId then
          some { status := .failed, started_at := none, completed_at := some now
                 products_count := none, error := some err
                 message := str "Training failed" }
        else st.trainingStatus sid }

/-- The seven boostable attributes of the specification. -/
inductive BoostAttr
  | seasonA
  | categoryA
  | manufacturerA
  | colorA
  | genderA
  | fitA
  | kindOfA
deriving DecidableEq

/-- The attribute list, in the order the boost pass examines them. -/
def attrList : List BoostAttr :=
  [.seasonA, .categoryA, .manufacturerA, .colorA, .genderA, .fitA, .kindOfA]

/-- The configured weight of an attribute. -/
def attrWeight (bc : BoostConfig) : BoostAttr → ℚ
  | .seasonA => bc.season
  | .categoryA => bc.category
  | .manufacturerA => bc.manufacturer
  | .colorA => bc.color
  | .genderA => bc.gender
  | .fitA => bc.fit
  | .kindOfA => bc.kind_of

/-- The season predicate as a single disjunction of the four keyword families. -/
def seasonHit (qL sL : Str) : Bool :=
  ((substrB (str "καλοκαίρι") qL || substrB (str "summer") qL) && substrB (str "καλοκαιρ") sL)
  || ((substrB (str "χειμώνα") qL || substrB (str "κρύο") qL || substrB (str "winter") qL) && substrB (str "χειμ") sL)
  || ((substrB (str "άνοιξη") qL || substrB (str "spring") qL) && substrB (str "ανοιξ") sL)
  || ((substrB (str "φθινόπωρο") qL || substrB (str "autumn") qL || substrB (str "fall") qL) && substrB (str "φθιν") sL)

/-- Modelled from the spec: the per-attribute match predicate of the boost
pass (spec section 4.4 step 4) — case-insensitive substring containment of
the product's field in the query, except season (bilingual keyword table)
and fit (any whitespace token of the field occurs in the query); an empty
field never matches. -/
def attrMatchB (qL : Str) (p : ProductData) : BoostAttr → Bool
  | .seasonA => !(pyLower p.season).isEmpty && seasonHit qL (pyLower p.season)
  | .categoryA => !(pyLower p.category).isEmpty && substrB (pyLower p.category) qL
  | .manufacturerA => !(pyLower p.manufacturer).isEmpty && substrB (pyLower p.manufacturer) qL
  | .colorA => !(pyLower p.color).isEmpty && substrB (pyLower p.color) qL
  | .genderA => !(pyLower p.gender).isEmpty && substrB (pyLower p.gender) qL
  | .fitA => !(pyLower p.fit).isEmpty && (splitWs (pyLower p.fit)).any (fun w => substrB w qL)
  | .kindOfA => !(pyLower p.kind_of).isEmpty && substrB (pyLower p.kind_of) qL

/-- Modelled from the spec: the total boost as the spec states it — the sum,
over attributes configured with positive weight whose predicate matches, of
exactly that attribute's weight, each attribute contributing at most once. -/
def specBoost (bc : BoostConfig) (qL : Str) (p : ProductData) : ℚ :=
  (attrList.map (fun a =>
    if 0 < attrWeight bc a ∧ attrMatchB qL p a = true then attrWeight bc a else 0)).sum

/-! Concrete instances used by counterexamples and witnesses. -/

/-- A scoring context whose external fuzzy scorer returns 0 everywhere. -/
def ctx0 : SearchCtx := ⟨fun _ _ => 0⟩

/-- An all-zero boost configuration. -/
def bc0 : BoostConfig :=
  { season := 0, category := 0, manufacturer := 0, color := 0, gender := 0
    fit := 0, kind_of := 0 }

/-- A product record with a given id and every other field empty. -/
def blankProduct (i : Str) : ProductData :=
  { id := i, name := [], model := [], description := [], category := [], season := []
    gender := [], kind_of := [], fit := [], color := [], manufacturer := []
    price := [], image := [], url := [], search_text := [] }

/-- A two-product engine whose products tie on every score component. -/
def E0 : Engine :=
  { products := [blankProduct (str "first"), blankProduct (str "second")]
    embeddings := [[], []] }

/-- The empty query embedding used with `E0`. -/
def qe0 : List ℚ := []

/-- The query used with `E0`. -/
def q0 : Str := str "q"

/-- A raw product node whose stripped name ends in `<` and whose stripped
mpn starts with `b>`. -/
def raw1 : RawProduct := { emptyRaw with name := str "a<", mpn := str "b>" }

/-- A raw product node with a plain name. -/
def raw0 : RawProduct := { emptyRaw with name := str "shoe" }

/-- The embedding encoder used in witnesses: one empty vector per input. -/
def encode0 : List Str → List (List ℚ) := fun xs => xs.map (fun _ => [])

/-- The artifact `trainArtifact encode0` produces from `[raw0]`. -/
def artifact0 : Artifact :=
  { shop_id := str "s", products := [mkProductData raw0], embeddings := [[]]
    trained_at := 0 }

/-- A deserializer that accepts exactly the content `"good"`. -/
def parse0 : Str → Option Artifact :=
  fun s => if s = str "good" then some artifact0 else none

/-! Lemmas about the tag scanner `findGt` / `tagAt` / `hasTag`. -/

theorem findGt_eq_none {l : Str} : findGt l = none ↔ '>' ∉ l := by
  induction l with
  | nil => simp [findGt]
  | cons c rest ih =>
    by_cases hc : c = '>'
    · subst hc; simp [findGt]
    · simp [findGt, hc, Option.map_eq_none', ih, Ne.symm hc]

theorem findGt_of_decomp {bef : Str} (rest : Str) (h : '>' ∉ bef) :
    findGt (bef ++ '>' :: rest) = some (bef, rest) := by
  induction bef with
  | nil => simp [findGt]
  | cons x xs ih =>
    have hx : ¬ x = '>' := fun hx => h (by simp [hx])
    have hxs : '>' ∉ xs := fun hm => h (by simp [hm])
    simp [findGt, hx, ih hxs]

theorem findGt_some {l bef aft : Str} (h : findGt l = some (bef, aft)) :
    l = bef ++ '>' :: aft ∧ '>' ∉ bef := by
  induction l generalizing bef aft with
  | nil => simp [findGt] at h
  | cons c rest ih =>
    by_cases hc : c = '>'
    · subst hc
      rw [findGt, if_pos rfl] at h
      simp only [Option.some.injEq, Prod.mk.injEq] at h
      obtain ⟨h1, h2⟩ := h
      subst h1; subst h2
      simp
    · rw [findGt, if_neg hc, Option.map_eq_some'] at h
      obtain ⟨⟨b2, a2⟩, hb, heq⟩ := h
      simp only [Prod.mk.injEq] at heq
      obtain ⟨h1, h2⟩ := heq
      subst h1; subst h2
      obtain ⟨hd, hm⟩ := ih hb
      constructor
      · rw [List.cons_append, hd]
      · intro hmem
        rcases List.mem_cons.mp hmem with h | h
        · exact hc h.symm
        · exact hm h

theorem findGt_append {l bef aft : Str} (b : Str) (h : findGt l = some (bef, aft)) :
    findGt (l ++ b) = some (bef, aft ++ b) := by
  obtain ⟨hd, hm⟩ := findGt_some h
  subst hd
  rw [List.append_assoc, List.cons_append]
  exact findGt_of_decomp (aft ++ b) hm

theorem hasTag_cons (c : Char) (rest : Str) :
    hasTag (c :: rest) = ((if c = '<' then tagAt rest else false) || hasTag rest) := rfl

theorem hasTag_of_noGt {l : Str} (h : '>' ∉ l) : hasTag l = false := by
  induction l with
  | nil => rfl
  | cons c rest ih =>
    have hrest : '>' ∉ rest := fun hm => h (by simp [hm])
    rw [hasTag_cons, ih hrest, Bool.or_false]
    split
    · simp [tagAt, findGt_eq_none.mpr hrest]
    · rfl

theorem hasTag_append_of_left {t : Str} (b : Str) (h : hasTag t = true) :
    hasTag (t ++ b) = true := by
  induction t with
  | nil => simp [hasTag] at h
  | cons c rest ih =>
    rw [List.cons_append, hasTag_cons]
    rw [hasTag_cons, Bool.or_eq_true] at h
    rcases h with h1 | h2
    · by_cases hc : c = '<'
      · rw [if_pos hc] at h1
        rw [if_pos hc]
        unfold tagAt at h1 ⊢
        rcases hg : findGt rest with _ | ⟨⟨bef, aft⟩⟩
        · rw [hg] at h1; simp at h1
        · rw [hg] at h1
          cases bef with
          | nil => simp at h1
          | cons x xs => rw [findGt_append b hg]; simp
      · rw [if_neg hc] at h1; simp at h1
    · rw [ih h2, Bool.or_true]

theorem hasTag_append_of_right {t : Str} (a : Str) (h : hasTag t = true) :
    hasTag (a ++ t) = true := by
  induction a with
  | nil => simpa using h
  | cons x xs ih => rw [List.cons_append, hasTag_cons, ih, Bool.or_true]

theorem hasTag_suffix_false {a t : Str} (h : hasTag (a ++ t) = false) : hasTag t = false := by
  cases ht : hasTag t with
  | false => rfl
  | true => rw [hasTag_append_of_right a ht] at h; cases h

theorem hasTag_middle_false {a t b : Str} (h : hasTag (a ++ t ++ b) = false) :
    hasTag t = false := by
  cases ht : hasTag t with
  | false => rfl
  | true =>
    rw [List.append_assoc, hasTag_append_of_right a (hasTag_append_of_left b ht)] at h
    cases h

theorem hasTag_take_false {l : Str} (n : ℕ) (h : hasTag l = false) :
    hasTag (l.take n) = false := by
  cases ht : hasTag (l.take n) with
  | false => rfl
  | true =>
    rw [← List.take_append_drop n l, hasTag_append_of_left _ ht] at h
    cases h

/-! The output of the tag-removal pass contains no tag. -/

theorem hasTag_stripTagsF : ∀ f : ℕ, ∀ l : Str, l.length ≤ f → hasTag (stripTagsF f l) = false := by
  intro f
  induction f using Nat.strong_induction_on with
  | _ f ih =>
    intro l hl
    match f, l with
    | 0, l =>
      have : l = [] := List.eq_nil_of_length_eq_zero (Nat.le_zero.mp hl)
      subst this; rfl
    | s + 1, [] => rfl
    | s + 1, c :: rest =>
      have hrest : rest.length ≤ s := by simpa using hl
      by_cases hc : c = '<'
      · rcases hg : findGt rest with _ | ⟨⟨bef, aft⟩⟩
        · rw [stripTagsF, if_pos hc, hg]
          rw [hasTag_cons, if_pos hc, tagAt, hg]
          simp [hasTag_of_noGt (findGt_eq_none.mp hg)]
        · cases bef with
          | nil =>
            obtain ⟨hd, -⟩ := findGt_some hg
            simp only [List.nil_append] at hd
            have hlen1 : 1 ≤ rest.length := by rw [hd]; simp
            obtain ⟨s2, rfl⟩ : ∃ s2, s = s2 + 1 := by
              cases s with
              | zero => omega
              | succ n => exact ⟨n, rfl⟩
            rw [stripTagsF, if_pos hc, hg]
            subst hd
            rw [stripTagsF]
            have hgt : ¬ ('>' : Char) = '<' := by decide
            rw [if_neg hgt]
            rw [hasTag_cons, if_pos hc, tagAt, findGt, if_pos rfl]
            have haft : aft.length ≤ s2 := by simp at hrest; omega
            rw [hasTag_cons]
            have hgt2 : (if ('>' : Char) = '<' then tagAt (stripTagsF s2 aft) else false) = false := by
              rw [if_neg hgt]
            rw [hgt2, ih s2 (by omega) aft haft]
            rfl
          | cons x xs =>
            rw [stripTagsF, if_pos hc, hg]
            obtain ⟨hd, -⟩ := findGt_some hg
            have haft : aft.length ≤ s := by
              have h2 : rest.length = (x :: xs ++ '>' :: aft).length := by rw [hd]
              simp at h2; omega
            exact ih s (by omega) aft haft
      · rw [stripTagsF, if_neg hc]
        rw [hasTag_cons, if_neg hc, Bool.false_or]
        exact ih s (by omega) rest hrest

theorem hasTag_stripTagsL (l : Str) : hasTag (stripTagsL l) = false :=
  hasTag_stripTagsF l.length l le_rfl

/-! Whitespace collapsing preserves tag-freedom. -/

theorem mem_collapseWsF : ∀ f : ℕ, ∀ l : Str, ∀ x, x ∈ collapseWsF f l → x = ' ' ∨ x ∈ l := by
  intro f
  induction f using Nat.strong_induction_on with
  | _ f ih =>
    intro l x hx
    match f, l with
    | 0, l => exact Or.inr hx
    | s + 1, [] => simp [collapseWsF] at hx
    | s + 1, c :: rest =>
      rw [collapseWsF] at hx
      by_cases hw : c.isWhitespace
      · rw [if_pos hw] at hx
        rcases List.mem_cons.mp hx with h | h
        · exact Or.inl h
        · rcases ih s (by omega) _ x h with h2 | h2
          · exact Or.inl h2
          · exact Or.inr (List.mem_cons_of_mem c ((List.dropWhile_sublist _).subset h2))
      · rw [if_neg hw] at hx
        rcases List.mem_cons.mp hx with h | h
        · exact Or.inr (h ▸ List.mem_cons_self c rest)
        · rcases ih s (by omega) rest x h with h2 | h2
          · exact Or.inl h2
          · exact Or.inr (List.mem_cons_of_mem c h2)

theorem tagAt_false_cases {rest : Str} (h : tagAt rest = false) :
    findGt rest = none ∨ ∃ aft, findGt rest = some ([], aft) := by
  unfold tagAt at h
  rcases hg : findGt rest with _ | ⟨⟨bef, aft⟩⟩
  · exact Or.inl rfl
  · rw [hg] at h
    cases bef with
    | nil => exact Or.inr ⟨aft, rfl⟩
    | cons x xs => simp at h

theorem hasTag_collapseWsF :
    ∀ f : ℕ, ∀ l : Str, l.length ≤ f → hasTag l = false → hasTag (collapseWsF f l) = false := by
  intro f
  induction f using Nat.strong_induction_on with
  | _ f ih =>
    intro l hl hnt
    match f, l with
    | 0, l =>
      have : l = [] := List.eq_nil_of_length_eq_zero (Nat.le_zero.mp hl)
      subst this; rfl
    | s + 1, [] => rfl
    | s + 1, c :: rest =>
      have hrest : rest.length ≤ s := by simpa using hl
      rw [hasTag_cons, Bool.or_eq_false_iff] at hnt
      obtain ⟨hhead, htail⟩ := hnt
      rw [collapseWsF]
      by_cases hw : c.isWhitespace
      · rw [if_pos hw, hasTag_cons]
        have hsp : ¬ (' ' : Char) = '<' := by decide
        rw [if_neg hsp, Bool.false_or]
        have hsub : rest.dropWhile Char.isWhitespace <:+ rest := List.dropWhile_suffix _
        obtain ⟨pre, hpre⟩ := hsub
        have hdrop : hasTag (rest.dropWhile Char.isWhitespace) = false :=
          hasTag_suffix_false (a := pre) (by rw [hpre]; exact htail)
        exact ih s (by omega) _ (le_trans ((List.dropWhile_sublist _).length_le) hrest) hdrop
      · rw [if_neg hw, hasTag_cons]
        have htail2 : hasTag (collapseWsF s rest) = false := ih s (by omega) rest hrest htail
        rw [htail2, Bool.or_false]
        by_cases hc : c = '<'
        · rw [if_pos hc]
          rw [if_pos hc] at hhead
          rcases tagAt_false_cases hhead with hg | ⟨aft, hg⟩
          · have : '>' ∉ collapseWsF s rest := by
              intro hmem
              rcases mem_collapseWsF s rest '>' hmem with h | h
              · cases h
              · exact (findGt_eq_none.mp hg) h
            simp [tagAt, findGt_eq_none.mpr this]
          · obtain ⟨hd, -⟩ := findGt_some hg
            simp only [List.nil_append] at hd
            subst hd
            obtain ⟨s2, rfl⟩ : ∃ s2, s = s2 + 1 := by
              cases s with
              | zero => simp at hrest
              | succ n => exact ⟨n, rfl⟩
            rw [collapseWsF]
            have hgtw : ¬ ('>' : Char).isWhitespace := by decide
            rw [if_neg hgtw]
            simp [tagAt, findGt]
        · rw [if_neg hc]

theorem hasTag_collapseWs {l : Str} (h : hasTag l = false) : hasTag (collapseWs l) = false :=
  hasTag_collapseWsF l.length l le_rfl h

/-! Trimming preserves tag-freedom, hence `strip_html` output is tag-free. -/

theorem pyStrip_decomp (l : Str) : ∃ a b, l = a ++ pyStrip l ++ b := by
  refine ⟨l.takeWhile Char.isWhitespace,
    ((lstripWs l).reverse.takeWhile Char.isWhitespace).reverse, ?_⟩
  have h1 : l = l.takeWhile Char.isWhitespace ++ lstripWs l :=
    (List.takeWhile_append_dropWhile _ _).symm
  have h2 : lstripWs l =
      pyStrip l ++ ((lstripWs l).reverse.takeWhile Char.isWhitespace).reverse := by
    have h3 : (lstripWs l).reverse =
        (lstripWs l).reverse.takeWhile Char.isWhitespace ++
        (lstripWs l).reverse.dropWhile Char.isWhitespace :=
      (List.takeWhile_append_dropWhile _ _).symm
    calc lstripWs l = (lstripWs l).reverse.reverse := (List.reverse_reverse _).symm
    _ = ((lstripWs l).reverse.takeWhile Char.isWhitespace ++
          (lstripWs l).reverse.dropWhile Char.isWhitespace).reverse := by rw [← h3]
    _ = pyStrip l ++ ((lstripWs l).reverse.takeWhile Char.isWhitespace).reverse := by
          rw [List.reverse_append]; rfl
  rw [List.append_assoc, ← h2, ← h1]

theorem hasTag_pyStrip {l : Str} (h : hasTag l = false) : hasTag (pyStrip l) = false := by
  obtain ⟨a, b, hab⟩ := pyStrip_decomp l
  exact hasTag_middle_false (a := a) (b := b) (by rw [← hab]; exact h)

theorem hasTag_stripHtml (l : Str) : hasTag (stripHtml l) = false :=
  hasTag_pyStrip (hasTag_collapseWs (hasTag_stripTagsL l))

theorem hasTag_pyOr {x y : Str} (hx : hasTag x = false) (hy : hasTag y = false) :
    hasTag (pyOr x y) = false := by
  unfold pyOr; split
  · exact hy
  · exact hx

/-- Claim C7, amended part: `search_text` is the single-space join, in fixed
order, of the non-empty values among name, model, the first 500 characters of
description, category, season, gender, kind_of, fit, color, manufacturer, and
no individual component of `search_text` contains a markup tag. (The original
claim that `search_text` itself never contains a markup tag fails: the join
can form a `<...>` span across two components, see the counterexample.) -/
theorem C7_search_text (raw : RawProduct) :
    (mkProductData raw).search_text
      = joinSp ((searchTextParts (mkProductData raw)).filter (fun s => !s.isEmpty)) ∧
    ∀ s ∈ searchTextParts (mkProductData raw), hasTag s = false := by
  constructor
  · rfl
  · intro s hs
    simp only [searchTextParts, mkProductData, List.mem_cons, List.not_mem_nil, or_false] at hs
    rcases hs with rfl | rfl | rfl | rfl | rfl | rfl | rfl | rfl | rfl | rfl
    · exact hasTag_stripHtml _
    · exact hasTag_pyOr (hasTag_stripHtml _) (hasTag_stripHtml _)
    · exact hasTag_take_false _ (hasTag_stripHtml _)
    · exact hasTag_stripHtml _
    · exact hasTag_stripHtml _
    · exact hasTag_stripHtml _
    · exact hasTag_stripHtml _
    · exact hasTag_stripHtml _
    · exact hasTag_stripHtml _
    · exact hasTag_stripHtml _

/-- Claim C7, counterexample: for the parsed product whose name is `a<` and
whose mpn is `b>` (both fixed points of `strip_html`), the joined
`search_text` is `a< b>`, which contains a substring matching the markup-tag
regex `<[^>]+>`; so `search_text` is not tag-free as claimed. -/
theorem C7_counterexample : hasTag (mkProductData raw1).search_text = true := by decide

/-- Witness for C7's amended theorem at the concrete product `raw1`. -/
theorem C7_witness :
    (mkProductData raw1).search_text
      = joinSp ((searchTextParts (mkProductData raw1)).filter (fun s => !s.isEmpty)) ∧
    hasTag (stripHtml raw1.name) = false :=
  ⟨(C7_search_text raw1).1, (C7_search_text raw1).2 (stripHtml raw1.name) (by decide)⟩

/-! Ranking lemmas. -/

theorem pySlice_sublist {α : Type} (n : ℤ) (l : List α) : (pySlice n l).Sublist l := by
  unfold pySlice; split <;> exact List.take_sublist _ _

theorem survivors_sublist (s : List ℚ) (thr : ℚ) : (survivors s thr).Sublist (rankedIdx s) := by
  unfold survivors; split
  · exact List.filter_sublist _
  · exact List.Sublist.refl _

theorem rankedIdx_mem {s : List ℚ} {i : ℕ} (h : i ∈ rankedIdx s) : i < s.length := by
  unfold rankedIdx at h
  rw [List.mem_reverse] at h
  exact List.mem_range.mp
    ((List.perm_insertionSort (lexLe s) (List.range s.length)).mem_iff.mp h)

theorem rankedIdx_nodup (s : List ℚ) : (rankedIdx s).Nodup := by
  unfold rankedIdx
  rw [List.nodup_reverse]
  exact ((List.perm_insertionSort (lexLe s) (List.range s.length)).nodup_iff).mpr
    (List.nodup_range _)

theorem rankedIdx_pairwise (s : List ℚ) :
    (rankedIdx s).Pairwise (fun i j => lexLe s j i) := by
  unfold rankedIdx
  rw [List.pairwise_reverse]
  exact List.sorted_insertionSort (lexLe s) (List.range s.length)

theorem rankedIdx_rankRel (s : List ℚ) : (rankedIdx s).Pairwise (rankRel s) := by
  have hp := rankedIdx_pairwise s
  have hn : (rankedIdx s).Pairwise (fun i j => i ≠ j) := rankedIdx_nodup s
  refine (hp.and hn).imp ?_
  rintro i j ⟨hle, hne⟩
  rcases hle with h | ⟨heq, hji⟩
  · exact Or.inl h
  · exact Or.inr ⟨heq.symm, lt_of_le_of_ne hji (Ne.symm hne)⟩

/-- Claim C1, amended: the results of `search` are sorted in descending order
of boosted score, but two products with identical boosted scores appear in
the output in the reverse of their original index order (the code reverses an
ascending stable argsort, which flips tie order), for every index, query,
boost configuration, threshold and limit. -/
theorem C1_ranking (ctx : SearchCtx) (E : Engine) (qe : List ℚ) (q : Str)
    (bc : BoostConfig) (thr : ℚ) (lim : ℤ) :
    (topIdx ctx E qe q bc thr lim).Pairwise (rankRel (boostedAll ctx E qe q bc)) := by
  unfold topIdx
  exact List.Pairwise.sublist
    ((pySlice_sublist _ _).trans (survivors_sublist _ _))
    (rankedIdx_rankRel (boostedAll ctx E qe q bc))

/-! Concrete evaluation of the two-product tie engine. -/

theorem fuzzyScore0 (p : ProductData) : fuzzyScore ctx0 q0 p = 0 := by
  simp [fuzzyScore, ctx0]

theorem boostAccum0 (p : ProductData) : boostAccum bc0 (pyLower q0) p = 0 := by
  simp [boostAccum, bc0]

theorem bs0_eval : boostedAll ctx0 E0 qe0 q0 bc0 = [0, 0] := by
  simp [boostedAll, combinedScores, simScores, fuzzyScores, E0, qe0, dot,
    fuzzyScore0, boostAccum0]

theorem topIdx0_eval : topIdx ctx0 E0 qe0 q0 bc0 0 5 = [1, 0] := by
  rw [topIdx, bs0_eval, survivors, if_neg (lt_irrefl (0:ℚ))]
  have hrange : List.range (List.length ([0, 0] : List ℚ)) = [0, 1] := rfl
  rw [rankedIdx, hrange]
  have hle : lexLe [0, 0] 0 1 := Or.inr ⟨rfl, Nat.zero_le 1⟩
  rw [List.insertionSort, List.insertionSort, List.insertionSort]
  rw [List.orderedInsert, List.orderedInsert, if_pos hle]
  rw [pySlice, if_pos (by norm_num : (0:ℤ) ≤ 5)]
  rfl

theorem searchCore0_eval :
    searchCore ctx0 E0 qe0 q0 bc0 0 5 =
      [mkResult ctx0 E0 qe0 q0 bc0 1, mkResult ctx0 E0 qe0 q0 bc0 0] := by
  rw [searchCore, topIdx0_eval]
  rfl

/-- Claim C1, counterexample: on the two-product engine `E0` both boosted
scores are equal, yet the ranking is `[1, 0]`, so ties do not appear in
original index order. -/
theorem C1_counterexample :
    ¬ (topIdx ctx0 E0 qe0 q0 bc0 0 5).Pairwise
        (rankRelSpec (boostedAll ctx0 E0 qe0 q0 bc0)) := by
  rw [topIdx0_eval, bs0_eval]
  intro h
  have h10 := (List.pairwise_cons.mp h).1 0 (by simp)
  rcases h10 with h1 | ⟨heq, hlt⟩
  · simp [sGet] at h1
  · exact absurd hlt (by omega)

/-- Witness for C1's amended theorem at the concrete tie engine `E0`. -/
theorem C1_witness :
    (topIdx ctx0 E0 qe0 q0 bc0 0 5).Pairwise (rankRel (boostedAll ctx0 E0 qe0 q0 bc0)) :=
  C1_ranking ctx0 E0 qe0 q0 bc0 0 5

/-! The accumulated boost equals the specification's per-attribute sum. -/

theorem seasonBoostVal_eq (w : ℚ) (qL sL : Str) :
    seasonBoostVal w qL sL = (if seasonHit qL sL then w else 0) := by
  unfold seasonBoostVal seasonHit
  cases h1 : (substrB (str "καλοκαίρι") qL || substrB (str "summer") qL) && substrB (str "καλοκαιρ") sL <;>
  cases h2 : (substrB (str "χειμώνα") qL || substrB (str "κρύο") qL || substrB (str "winter") qL) && substrB (str "χειμ") sL <;>
  cases h3 : (substrB (str "άνοιξη") qL || substrB (str "spring") qL) && substrB (str "ανοιξ") sL <;>
  cases h4 : (substrB (str "φθινόπωρο") qL || substrB (str "autumn") qL || substrB (str "fall") qL) && substrB (str "φθιν") sL <;>
  simp [h1, h2, h3, h4]

theorem iteProp_bool (P : Prop) [Decidable P] (b : Bool) (w : ℚ) :
    (if P ∧ b = true then w else 0) = (if P then (if b then w else 0) else 0) := by
  by_cases hP : P <;> cases b <;> simp [hP]

theorem ite_bool_nested (a b : Bool) (w : ℚ) :
    (if a then (if b then w else 0) else 0) = (if a && b then w else 0) := by
  cases a <;> cases b <;> simp

theorem boostAccum_eq_specBoost (bc : BoostConfig) (qL : Str) (p : ProductData) :
    boostAccum bc qL p = specBoost bc qL p := by
  simp only [specBoost, attrList, List.map_cons, List.map_nil, List.sum_cons, List.sum_nil,
    attrWeight, attrMatchB, iteProp_bool, add_zero]
  simp only [boostAccum, seasonBoostVal_eq, ite_bool_nested]
  ring

/-! Membership of results decomposes to an in-range index. -/

theorem length_boostedAll (ctx : SearchCtx) (E : Engine) (qe : List ℚ) (q : Str)
    (bc : BoostConfig) (hWf : E.products.length = E.embeddings.length) :
    (boostedAll ctx E qe q bc).length = E.products.length := by
  simp [boostedAll, combinedScores, simScores, fuzzyScores, hWf]

theorem exists_idx_of_mem_searchCore {ctx : SearchCtx} {E : Engine} {qe : List ℚ} {q : Str}
    {bc : BoostConfig} {thr : ℚ} {lim : ℤ} {r : SearchResult}
    (hWf : E.products.length = E.embeddings.length)
    (hr : r ∈ searchCore ctx E qe q bc thr lim) :
    ∃ i, i < E.products.length ∧ r = mkResult ctx E qe q bc i := by
  obtain ⟨i, hi, rfl⟩ := List.mem_map.mp hr
  refine ⟨i, ?_, rfl⟩
  unfold topIdx at hi
  have h2 : i ∈ rankedIdx (boostedAll ctx E qe q bc) :=
    ((pySlice_sublist _ _).trans (survivors_sublist _ _)).subset hi
  have h3 := rankedIdx_mem h2
  rwa [length_boostedAll ctx E qe q bc hWf] at h3

/-- Claim C2: every returned result carries a base score equal to
`0.7 * semantic + 0.3 * lexical` — the semantic part being the dot product of
the query embedding with that product's embedding row — and a final score
equal to the base score plus the sum, over attributes configured with
positive weight whose predicate matches the query, of exactly that
attribute's weight, each attribute contributing at most once. -/
theorem C2_scores (ctx : SearchCtx) (E : Engine) (qe : List ℚ) (q : Str) (bc : BoostConfig)
    (thr : ℚ) (lim : ℤ) (hWf : E.products.length = E.embeddings.length)
    (r : SearchResult) (hr : r ∈ searchCore ctx E qe q bc thr lim) :
    ∃ i, i < E.products.length ∧
      r.product = E.products.getD i default ∧
      r.neural_score = dot (E.embeddings.getD i []) qe ∧
      r.fuzzy_score = fuzzyScore ctx q (E.products.getD i default) ∧
      r.base_score = 7/10 * r.neural_score + 3/10 * r.fuzzy_score ∧
      r.score = r.base_score + specBoost bc (pyLower q) r.product := by
  obtain ⟨i, hi, rfl⟩ := exists_idx_of_mem_searchCore hWf hr
  have hiE : i < E.embeddings.length := hWf ▸ hi
  have hsim : i < (simScores E qe).length := by simpa [simScores] using hiE
  have hfuz : i < (fuzzyScores ctx q E).length := by simpa [fuzzyScores] using hi
  have hcomb : i < (combinedScores ctx E qe q).length := by
    rw [combinedScores, List.length_zipWith]
    exact lt_min hsim hfuz
  have hboost : i < (boostedAll ctx E qe q bc).length := by
    rw [length_boostedAll ctx E qe q bc hWf]; exact hi
  refine ⟨i, hi, rfl, ?_, ?_, ?_, ?_⟩
  · show sGet (simScores E qe) i = dot (E.embeddings.getD i []) qe
    rw [sGet, List.getD_eq_getElem _ _ hsim, List.getD_eq_getElem _ _ hiE]
    simp [simScores]
  · show sGet (fuzzyScores ctx q E) i = fuzzyScore ctx q (E.products.getD i default)
    rw [sGet, List.getD_eq_getElem _ _ hfuz, List.getD_eq_getElem _ _ hi]
    simp [fuzzyScores]
  · show sGet (combinedScores ctx E qe q) i
      = 7/10 * sGet (simScores E qe) i + 3/10 * sGet (fuzzyScores ctx q E) i
    rw [sGet, sGet, sGet, List.getD_eq_getElem _ _ hcomb, List.getD_eq_getElem _ _ hsim,
      List.getD_eq_getElem _ _ hfuz]
    simp [combinedScores, List.getElem_zipWith]
  · show sGet (boostedAll ctx E qe q bc) i
      = sGet (combinedScores ctx E qe q) i
        + specBoost bc (pyLower q) (E.products.getD i default)
    rw [sGet, sGet, List.getD_eq_getElem _ _ hboost, List.getD_eq_getElem _ _ hcomb,
      List.getD_eq_getElem _ _ hi]
    simp [boostedAll, List.getElem_zipWith, boostAccum_eq_specBoost]

/-- Witness for C2 at the concrete engine `E0`. -/
theorem C2_witness :
    ∃ i, i < E0.products.length ∧
      (mkResult ctx0 E0 qe0 q0 bc0 1).product = E0.products.getD i default ∧
      (mkResult ctx0 E0 qe0 q0 bc0 1).neural_score = dot (E0.embeddings.getD i []) qe0 ∧
      (mkResult ctx0 E0 qe0 q0 bc0 1).fuzzy_score
        = fuzzyScore ctx0 q0 (E0.products.getD i default) ∧
      (mkResult ctx0 E0 qe0 q0 bc0 1).base_score
        = 7/10 * (mkResult ctx0 E0 qe0 q0 bc0 1).neural_score
          + 3/10 * (mkResult ctx0 E0 qe0 q0 bc0 1).fuzzy_score ∧
      (mkResult ctx0 E0 qe0 q0 bc0 1).score
        = (mkResult ctx0 E0 qe0 q0 bc0 1).base_score
          + specBoost bc0 (pyLower q0) (mkResult ctx0 E0 qe0 q0 bc0 1).product :=
  C2_scores ctx0 E0 qe0 q0 bc0 0 5 rfl (mkResult ctx0 E0 qe0 q0 bc0 1)
    (by rw [searchCore0_eval]; exact List.mem_cons_self _ _)

/-! Threshold monotonicity. -/

theorem length_filter_mono {α : Type} {p q : α → Bool} (l : List α)
    (h : ∀ a, q a = true → p a = true) :
    (l.filter q).length ≤ (l.filter p).length := by
  induction l with
  | nil => simp
  | cons a t ih =>
    by_cases hq : q a = true
    · rw [List.filter_cons, List.filter_cons, if_pos hq, if_pos (h a hq)]
      simp only [List.length_cons]
      exact Nat.add_le_add_right ih 1
    · rw [List.filter_cons, if_neg hq, List.filter_cons]
      by_cases hp : p a = true
      · rw [if_pos hp]
        exact le_trans ih (by simp)
      · rw [if_neg hp]
        exact ih

theorem length_pySlice_mono {α : Type} (n : ℤ) {l1 l2 : List α} (h : l2.length ≤ l1.length) :
    (pySlice n l2).length ≤ (pySlice n l1).length := by
  unfold pySlice
  split
  · simp only [List.length_take]
    exact min_le_min le_rfl h
  · simp only [List.length_take]
    rw [min_eq_left (Nat.sub_le _ _), min_eq_left (Nat.sub_le _ _)]
    exact Nat.sub_le_sub_right h _

theorem survivors_length_antitone (s : List ℚ) {t1 t2 : ℚ} (h : t1 ≤ t2) :
    (survivors s t2).length ≤ (survivors s t1).length := by
  unfold survivors
  by_cases h2 : 0 < t2
  · rw [if_pos h2]
    by_cases h1 : 0 < t1
    · rw [if_pos h1]
      refine length_filter_mono _ ?_
      intro i hi
      rw [decide_eq_true_eq] at hi ⊢
      exact le_trans h hi
    · rw [if_neg h1]
      exact List.length_filter_le _ _
  · have h1 : ¬ 0 < t1 := fun h1 => h2 (lt_of_lt_of_le h1 h)
    rw [if_neg h2, if_neg h1]

/-- Claim C3: for a fixed index, query, boost configuration and limit,
raising the minimum threshold never increases the number of results. -/
theorem C3_threshold (ctx : SearchCtx) (E : Engine) (qe : List ℚ) (q : Str)
    (bc : BoostConfig) (lim : ℤ) {t1 t2 : ℚ} (h : t1 ≤ t2) :
    (searchCore ctx E qe q bc t2 lim).length ≤ (searchCore ctx E qe q bc t1 lim).length := by
  simp only [searchCore, List.length_map, topIdx]
  exact length_pySlice_mono _ (survivors_length_antitone _ h)

/-- Witness for C3 at the concrete engine `E0` with thresholds 0 and 1. -/
theorem C3_witness :
    (searchCore ctx0 E0 qe0 q0 bc0 1 5).length ≤ (searchCore ctx0 E0 qe0 q0 bc0 0 5).length :=
  C3_threshold ctx0 E0 qe0 q0 bc0 5 (by norm_num)

/-- Claim C10: a zero limit returns an empty result list, and a negative
limit `-k` returns all surviving ranked entries except the last `k`
(Python slice semantics), instead of being rejected or replaced by the
default of 5. -/
theorem C10_limits (ctx : SearchCtx) (E : Engine) (qe : List ℚ) (q : Str)
    (bc : BoostConfig) (thr : ℚ) :
    searchCore ctx E qe q bc thr 0 = [] ∧
    ∀ k : ℕ, 0 < k →
      searchCore ctx E qe q bc thr (-(k : ℤ)) =
        (searchAll ctx E qe q bc thr).take ((searchAll ctx E qe q bc thr).length - k) := by
  constructor
  · simp [searchCore, topIdx, pySlice]
  · intro k hk
    have hneg : ¬ ((0:ℤ) ≤ -(k:ℤ)) := by omega
    have htoNat : ((-(-(k:ℤ))).toNat) = k := by simp
    rw [searchCore, topIdx, pySlice, if_neg hneg, htoNat, searchAll, List.length_map,
      ← List.map_take]

/-- Witness for C10 at the concrete engine `E0` with limit `-1`. -/
theorem C10_witness :
    searchCore ctx0 E0 qe0 q0 bc0 0 (-(1:ℤ)) =
      (searchAll ctx0 E0 qe0 q0 bc0 0).take ((searchAll ctx0 E0 qe0 q0 bc0 0).length - 1) :=
  (C10_limits ctx0 E0 qe0 q0 bc0 0).2 1 Nat.one_pos

/-! Artifact persistence and loading. -/

/-- Claim C4, counterexample: while `train` rewrites the artifact to content
`XYZ` over a previous artifact `OLD`, a reader can observe the intermediate
state `X`, which is neither the complete old artifact nor the complete new
one — the code opens the file with mode `w` (truncate and write in place),
not via a temporary path and rename. -/
theorem C4_counterexample :
    ¬ (∀ s ∈ persistWriteStates (str "XYZ"), s = str "OLD" ∨ s = str "XYZ") := by
  decide

/-- Claim C4, amended: the artifact write first truncates the file and then
appends the serialized content left to right, so every state a reader can
observe is a prefix of the new artifact; torn (partial) reads are possible,
and the old artifact is never even partially visible after the write starts. -/
theorem C4_torn_write (new s : Str) (h : s ∈ persistWriteStates new) :
    ∃ t, s ++ t = new := by
  obtain ⟨k, -, rfl⟩ := List.mem_map.mp h
  exact ⟨new.drop k, List.take_append_drop _ _⟩

/-- Witness for C4: the observable state `X` is a prefix of `XYZ`. -/
theorem C4_witness : ∃ t, str "X" ++ t = str "XYZ" :=
  C4_torn_write (str "XYZ") (str "X") (by decide)

/-- Claim C5, counterexample: under a deserializer that accepts exactly the
content `good`, a missing artifact file and a present-but-undeserializable
artifact produce the same not-loaded outcome (the code returns `False` for
both), while the well-formed artifact loads; so the two failure modes are
not reported distinctly. -/
theorem C5_counterexample :
    parse0 (str "corrupt") = none ∧
    loadModel parse0 none = loadModel parse0 (some (str "corrupt")) ∧
    loadModel parse0 (some (str "good")) = some (loadIndex artifact0) := by
  decide

/-- Claim C5, amended: `load` reports a missing artifact and an
undeserializable artifact through the same not-loaded outcome (`False` in the
code, `none` here); only a well-formed artifact yields a loaded index. -/
theorem C5_load (parse : Str → Option Artifact) (c : Str) (a : Artifact) :
    loadModel parse none = none ∧
    (parse c = none → loadModel parse (some c) = none) ∧
    (parse c = some a → loadModel parse (some c) = some (loadIndex a)) := by
  refine ⟨rfl, fun h => ?_, fun h => ?_⟩ <;> simp [loadModel, h]

/-- Witness for C5: the undeserializable content yields the not-loaded
outcome. -/
theorem C5_witness : loadModel parse0 (some (str "corrupt")) = none :=
  (C5_load parse0 (str "corrupt") artifact0).2.1 (by decide)

/-- Claim C6: given the embedder contract (one vector per input text), a
successful train produces an artifact whose product count equals its
embedding row count, and loading that artifact restores an index satisfying
the same invariant. -/
theorem C6_invariant (encode : List Str → List (List ℚ)) (shopId : Str)
    (raws : List RawProduct) (now : ℚ)
    (hcontract : ∀ xs, (encode xs).length = xs.length)
    (a : Artifact) (h : trainArtifact encode shopId raws now = some a) :
    a.products.length = a.embeddings.length ∧
    (loadIndex a).products.length = (loadIndex a).embeddings.length := by
  simp only [trainArtifact] at h
  split at h
  · cases h
  · obtain rfl := Option.some.inj h
    constructor <;> simp [loadIndex, hcontract, List.length_map]

/-- Witness for C6 at a one-product feed and the trivial encoder. -/
theorem C6_witness :
    artifact0.products.length = artifact0.embeddings.length ∧
    (loadIndex artifact0).products.length = (loadIndex artifact0).embeddings.length :=
  C6_invariant encode0 (str "s") [raw0] 0 (fun xs => by simp [encode0]) artifact0 rfl

/-! Background training. -/

/-- Claim C8: when a background training run fails for any reason, the
training status record for that tenant becomes `failed` with the error
description and a completion timestamp, the in-memory cache map is left
untouched, and the cache entry is (re)written exactly on a successful run. -/
theorem C8_failure (shopId err : Str) (now : ℚ) (st : SysState) :
    (backgroundTrain shopId (.fail err) now st).trainingStatus shopId =
      some { status := .failed, started_at := none, completed_at := some now
             products_count := none, error := some err
             message := str "Training failed" } ∧
    (backgroundTrain shopId (.fail err) now st).loadedModels = st.loadedModels ∧
    ∀ e cnt sid, (backgroundTrain shopId (.ok e cnt) now st).loadedModels sid =
      if sid = shopId then some e else st.loadedModels sid := by
  refine ⟨?_, rfl, fun e cnt sid => rfl⟩
  simp [backgroundTrain]

/-- Claim C9: for a loaded (cached) index, `search` leaves the engine's
stored products and embeddings unchanged, and each returned result is a copy
of a stored product record augmented with the four score fields. -/
theorem C9_frame (ctx : SearchCtx) (parse : Str → Option Artifact) (file : Option Str)
    (E : Engine) (qe : List ℚ) (q : Str) (bc : BoostConfig) (thr : ℚ) (lim : ℤ)
    (hne : E.products.isEmpty = false)
    (hWf : E.products.length = E.embeddings.length) :
    (searchRun ctx parse file E qe q bc thr lim).1 = E ∧
    (searchRun ctx parse file E qe q bc thr lim).2 = searchCore ctx E qe q bc thr lim ∧
    ∀ r ∈ (searchRun ctx parse file E qe q bc thr lim).2,
      ∃ i, i < E.products.length ∧ r.product = E.products.getD i default := by
  have hrun : searchRun ctx parse file E qe q bc thr lim
      = (E, searchCore ctx E qe q bc thr lim) := by
    unfold searchRun
    rw [if_neg (by simp [hne])]
  refine ⟨by rw [hrun], by rw [hrun], ?_⟩
  rw [hrun]
  intro r hr
  obtain ⟨i, hi, rfl⟩ := exists_idx_of_mem_searchCore hWf hr
  exact ⟨i, hi, rfl⟩

/-- Witness for C9 at the concrete engine `E0`. -/
theorem C9_witness :
    (searchRun ctx0 parse0 none E0 qe0 q0 bc0 0 5).1 = E0 ∧
    (searchRun ctx0 parse0 none E0 qe0 q0 bc0 0 5).2 = searchCore ctx0 E0 qe0 q0 bc0 0 5 ∧
    ∀ r ∈ (searchRun ctx0 parse0 none E0 qe0 q0 bc0 0 5).2,
      ∃ i, i < E0.products.length ∧ r.product = E0.products.getD i default :=
  C9_frame ctx0 parse0 none E0 qe0 q0 bc0 0 5 rfl rfl

end App
